import Mathlib

/-!
Verification of the `mem-allocs` crate (arena bump allocator and C-heap
allocators) against its natural-language specification.

The Rust code is shallowly embedded: `usize` arithmetic is `Nat` with explicit
`% 2 ^ 64` where the source wraps (the target is 64-bit), `checked_add` is
`Option`, the arena buffer is a list of possibly-uninitialized bytes, and the
C heap is an association list of blocks, with the platform allocation
primitive (`posix_memalign` / `malloc`, which are outside the crate) passed as
a parameter constrained only by its documented contract.
-/

/-- A byte value. -/
abbrev Byte := Fin 256

/-- A possibly-uninitialized byte (`MaybeUninit<u8>`): `none` = uninitialized. -/
abbrev MUByte := Option Byte

/-- `usize::MAX` on the 64-bit target. -/
def USIZE_MAX : Nat := 2 ^ 64 - 1

/-- `usize::checked_add`: `none` on overflow. -/
def checked_add (x y : Nat) : Option Nat :=
  if x + y ≤ USIZE_MAX then some (x + y) else none

/-- State of `ArenaAllocator` (src/arena_allocator.rs lines 34-38): the backing
`Vec<MaybeUninit<u8>>` and the bump offset. -/
structure ArenaAllocator where
  buffer : List MUByte
  offset : Nat
deriving DecidableEq

/-- `ArenaAllocator::new(bytes)`: an uninitialized buffer of `bytes` bytes and
offset 0. -/
def ArenaAllocator.new (bytes : Nat) : ArenaAllocator :=
  { buffer := List.replicate bytes none, offset := 0 }

/-- `ArenaAllocator::reset`: sets the offset to 0. -/
def ArenaAllocator.reset (a : ArenaAllocator) : ArenaAllocator :=
  { a with offset := 0 }

/-- `ArenaAllocator::align_up(offset, align) = (offset + align - 1) & !(align - 1)`
in wrapping `usize` arithmetic: both the `+ align - 1` and the `align - 1` are
unchecked (wrapping) subtractions, written here as `+ USIZE_MAX` modulo `2 ^ 64`,
and `!` is bitwise complement, written as xor with `USIZE_MAX`. -/
def ArenaAllocator.align_up (offset align : Nat) : Nat :=
  ((offset + align + USIZE_MAX) % 2 ^ 64) &&&
    (USIZE_MAX ^^^ ((align + USIZE_MAX) % 2 ^ 64))

/-- `ArenaAllocator::capacity`: the backing buffer length. -/
def ArenaAllocator.capacity (a : ArenaAllocator) : Nat :=
  a.buffer.length

/-- `<ArenaAllocator as Allocator>::allocate(layout)` (src/arena_allocator.rs
lines 107-127). Returns the updated allocator and, on success, the returned
region as (offset into the buffer, length). -/
def ArenaAllocator.allocate (a : ArenaAllocator) (size align : Nat) :
    ArenaAllocator × Option (Nat × Nat) :=
  let aligned_offset := ArenaAllocator.align_up a.offset align
  match checked_add aligned_offset size with
  | none => (a, none)
  | some e =>
    if e > a.buffer.length then (a, none)
    else ({ a with offset := e }, some (aligned_offset, size))

/-- `<ArenaAllocator as Allocator>::deallocate`: a no-op on the state. -/
def ArenaAllocator.deallocate (a : ArenaAllocator) (_ptr : Nat) : ArenaAllocator :=
  a

/-- `<ArenaAllocator as GlobalAlloc>::alloc` (src/arena_allocator.rs lines
133-138): null (0) on failure, otherwise the absolute base address of the
returned region, `base + aligned_offset`, where `base` is the address of the
backing buffer (`buffer.as_mut_ptr()`). -/
def ArenaAllocator.alloc (a : ArenaAllocator) (base size align : Nat) :
    ArenaAllocator × Nat :=
  match a.allocate size align with
  | (a1, none) => (a1, 0)
  | (a1, some reg) => (a1, base + reg.1)

/-- `<ArenaAllocator as GlobalAlloc>::dealloc`: a no-op on the state. -/
def ArenaAllocator.dealloc (a : ArenaAllocator) (_ptr : Nat) : ArenaAllocator :=
  a

/-- An operation on the arena: `allocate`, `deallocate` or `reset`. -/
inductive ArenaOp where
| alloc (size align : Nat)
| dealloc
| reset
deriving DecidableEq

/-- Runs a sequence of operations, collecting the regions returned by
successful allocations since the last reset. -/
def runSince (a : ArenaAllocator) (regs : List (Nat × Nat)) :
    List ArenaOp → ArenaAllocator × List (Nat × Nat)
  | [] => (a, regs)
  | ArenaOp.reset :: ops => runSince a.reset [] ops
  | ArenaOp.dealloc :: ops => runSince a regs ops
  | ArenaOp.alloc s al :: ops =>
    match a.allocate s al with
    | (a1, none) => runSince a1 regs ops
    | (a1, some r) => runSince a1 (regs ++ [r]) ops

/-- Runs a sequence of `(size, align)` allocation requests, returning the
sequence of results (success region or failure). -/
def runAllocs (a : ArenaAllocator) : List (Nat × Nat) → List (Option (Nat × Nat))
  | [] => []
  | r :: rs =>
    (a.allocate r.1 r.2).2 :: runAllocs (a.allocate r.1 r.2).1 rs

/-- A `(size, align)` pair coming from a valid `Layout` on the 64-bit target:
the alignment is a power of two of at most `2 ^ 63`. -/
def ArenaOpOk : ArenaOp → Prop
  | ArenaOp.alloc _ al => ∃ k, k ≤ 63 ∧ al = 2 ^ k
  | _ => True

/-! ## The C-heap allocators (src/c_allocator.rs)

The platform allocation primitives (`posix_memalign`, `malloc`, `free`) are
libc functions, external to the crate; they are passed as parameters and
constrained only by their documented contract (`PrimOk`, `MallocOk`). -/

/-- A heap block: its bytes, `none` = uninitialized. -/
abbrev Block := List MUByte

/-- The C heap: an association list from block base address to block. -/
abbrev Heap := List (Nat × Block)

/-- The platform aligned-allocation primitive (`posix_memalign`): given the
heap, a size and an alignment, fails (`none`, modelling a nonzero status) or
returns a pointer and the extended heap. -/
abbrev Prim := Heap → Nat → Nat → Option (Nat × Heap)

/-- The platform basic allocation primitive (`malloc`): given the heap and a
size, fails (`none`, modelling a null return) or returns a pointer and the
extended heap. -/
abbrev Malloc := Heap → Nat → Option (Nat × Heap)

/-- The block stored at address `p`, if any. -/
def lookupB (h : Heap) (p : Nat) : Option Block :=
  (h.find? (fun e => e.1 == p)).map (fun e => e.2)

/-- Replaces the block stored at address `p`. -/
def setBlock (h : Heap) (p : Nat) (b : Block) : Heap :=
  h.map (fun e => if e.1 == p then (p, b) else e)

/-- libc `free(p)`: removes the block at `p` from the heap. -/
def free (h : Heap) (p : Nat) : Heap :=
  h.eraseP (fun e => e.1 == p)

/-- `ptr::write_bytes(p, val, count)`: fills the first `count` bytes of the
block at `p` with `val`. -/
def write_bytes (h : Heap) (p : Nat) (val : Byte) (count : Nat) : Heap :=
  match lookupB h p with
  | none => h
  | some b =>
    setBlock h p (List.replicate (min count b.length) (some val) ++ b.drop count)

/-- `ptr::copy_nonoverlapping(src, dst, count)`: copies the first `count`
bytes of the block at `src` over the first `count` bytes of the block at
`dst`. -/
def copy_nonoverlapping (h : Heap) (src dst count : Nat) : Heap :=
  match lookupB h src with
  | none => h
  | some bs =>
    match lookupB h dst with
    | none => h
    | some bd => setBlock h dst (bs.take count ++ bd.drop count)

/-- `mem::size_of::<usize>()` on the 64-bit target. -/
def usizeSize : Nat := 8

/-- Modelled from the spec: the contract of the platform aligned-allocation
primitive (`posix_memalign`, which is not part of the crate): a successful
allocation returns a fresh non-null pointer, aligned to the requested
alignment, whose block of `size` uninitialized bytes lies inside the address
space, pushed onto the otherwise-unchanged heap. -/
def PrimOk (prim : Prim) : Prop :=
  ∀ h size align q h1, prim h size align = some (q, h1) →
    q ≠ 0 ∧ q % align = 0 ∧ q + size ≤ 2 ^ 64 ∧
    lookupB h q = none ∧ h1 = (q, List.replicate size none) :: h

/-- Modelled from the spec: the contract of the platform basic allocation
primitive (`malloc`, which is not part of the crate): like `PrimOk` but with
the platform's natural alignment, which the spec pins down only as at least
pointer-size (8 bytes on the 64-bit target). -/
def MallocOk (mal : Malloc) : Prop :=
  ∀ h size q h1, mal h size = some (q, h1) →
    q ≠ 0 ∧ q % 8 = 0 ∧ q + size ≤ 2 ^ 64 ∧
    lookupB h q = none ∧ h1 = (q, List.replicate size none) :: h

/-- `allocate_memory(size, alignment)` (src/c_allocator.rs lines 83-115):
calls `posix_memalign`; a nonzero status or a null pointer is an
`AllocError` (`none`); the heap is threaded through. -/
def allocate_memory (prim : Prim) (h : Heap) (size alignment : Nat) :
    Option Nat × Heap :=
  match prim h size alignment with
  | none => (none, h)
  | some (p, h1) => if p = 0 then (none, h1) else (some p, h1)

/-- `<CAllocator as Allocator>::allocate(layout)`: raises the alignment to at
least `size_of::<usize>()`, allocates, and wraps the pointer and the exact
requested length. -/
def CAllocator.allocate (prim : Prim) (h : Heap) (size align : Nat) :
    Option (Nat × Nat) × Heap :=
  let alignment := max align usizeSize
  match allocate_memory prim h size alignment with
  | (none, h1) => (none, h1)
  | (some p, h1) => (if p = 0 then none else some (p, size), h1)

/-- `<CAllocator as GlobalAlloc>::alloc(layout)`: like `allocate` but returns
the null pointer (0) on failure. -/
def CAllocator.alloc (prim : Prim) (h : Heap) (size align : Nat) : Nat × Heap :=
  let alignment := max align usizeSize
  match allocate_memory prim h size alignment with
  | (none, h1) => (0, h1)
  | (some p, h1) => (p, h1)

/-- `<CAllocator as GlobalAlloc>::alloc_zeroed(layout)` (src/c_allocator.rs
lines 54-60): `alloc`, then zero-fill the full requested size if non-null. -/
def CAllocator.alloc_zeroed (prim : Prim) (h : Heap) (size align : Nat) :
    Nat × Heap :=
  let r := CAllocator.alloc prim h size align
  if r.1 ≠ 0 then (r.1, write_bytes r.2 r.1 0 size) else r

/-- `<CAllocator as GlobalAlloc>::dealloc`: libc `free`. -/
def CAllocator.dealloc (h : Heap) (p : Nat) : Heap :=
  free h p

/-- `<CAllocator as GlobalAlloc>::realloc(old_ptr, old_layout, new_size)`
(src/c_allocator.rs lines 66-75): allocate `new_size` at the old alignment,
and if that succeeded copy `min(old_size, new_size)` bytes and free the old
block; on failure return null with the old block untouched. -/
def CAllocator.realloc (prim : Prim) (h : Heap)
    (old_ptr old_size old_align new_size : Nat) : Nat × Heap :=
  let r := CAllocator.alloc prim h new_size old_align
  if r.1 ≠ 0 then
    let copy_size := min old_size new_size
    let h2 := copy_nonoverlapping r.2 old_ptr r.1 copy_size
    (r.1, CAllocator.dealloc h2 old_ptr)
  else r

/-- `<RawCAllocator as Allocator>::allocate(layout)` (src/c_allocator.rs lines
141-148): `malloc(layout.size())`, `AllocError` on null; the alignment of the
layout is ignored. -/
def RawCAllocator.allocate (mal : Malloc) (h : Heap) (size _align : Nat) :
    Option (Nat × Nat) × Heap :=
  match mal h size with
  | none => (none, h)
  | some (p, h1) => (if p = 0 then none else some (p, size), h1)

/-- `<RawCAllocator as GlobalAlloc>::alloc(layout)`: `malloc(layout.size())`,
null (0) on failure. -/
def RawCAllocator.alloc (mal : Malloc) (h : Heap) (size : Nat) : Nat × Heap :=
  match mal h size with
  | none => (0, h)
  | some (p, h1) => (p, h1)

/-- `<RawCAllocator as GlobalAlloc>::alloc_zeroed(layout)` (src/c_allocator.rs
lines 160-166): `alloc`, then zero-fill the full requested size if non-null. -/
def RawCAllocator.alloc_zeroed (mal : Malloc) (h : Heap) (size : Nat) :
    Nat × Heap :=
  let r := RawCAllocator.alloc mal h size
  if r.1 ≠ 0 then (r.1, write_bytes r.2 r.1 0 size) else r

/-- `<RawCAllocator as GlobalAlloc>::dealloc`: libc `free`. -/
def RawCAllocator.dealloc (h : Heap) (p : Nat) : Heap :=
  free h p

/-- `<RawCAllocator as GlobalAlloc>::realloc(old_ptr, old_layout, new_size)`
(src/c_allocator.rs lines 172-181): identical to `CAllocator::realloc` except
that the new block comes from `malloc`. -/
def RawCAllocator.realloc (mal : Malloc) (h : Heap)
    (old_ptr old_size new_size : Nat) : Nat × Heap :=
  let r := RawCAllocator.alloc mal h new_size
  if r.1 ≠ 0 then
    let copy_size := min old_size new_size
    let h2 := copy_nonoverlapping r.2 old_ptr r.1 copy_size
    (r.1, RawCAllocator.dealloc h2 old_ptr)
  else r

/-! ## Helper lemmas -/

/-- Masking off the low `k` bits of a 64-bit value rounds it down to a
multiple of `2 ^ k`. -/
theorem land_mask_eq (x k : Nat) (hx : x < 2 ^ 64) (hk : k ≤ 64) :
    x &&& ((2 ^ 64 - 1) ^^^ (2 ^ k - 1)) = x / 2 ^ k * 2 ^ k := by
  have hx2 : ∀ i, 64 ≤ i → x.testBit i = false := fun i hi =>
    Nat.testBit_lt_two_pow (lt_of_lt_of_le hx (Nat.pow_le_pow_right (by norm_num) hi))
  rw [← Nat.shiftRight_eq_div_pow, ← Nat.shiftLeft_eq]
  apply Nat.eq_of_testBit_eq
  intro i
  rw [Nat.testBit_land, Nat.testBit_xor, Nat.testBit_two_pow_sub_one,
    Nat.testBit_two_pow_sub_one, Nat.testBit_shiftLeft, Nat.testBit_shiftRight]
  by_cases h1 : i < k
  · have h64 : i < 64 := lt_of_lt_of_le h1 hk
    simp [h1, h64, Nat.not_le.mpr h1]
  · by_cases h2 : i < 64
    · have h3 : k + (i - k) = i := by omega
      simp [h1, h2, Nat.not_lt.mp h1, h3]
    · have h3 : k + (i - k) = i := by omega
      simp [h1, h2, hx2 i (Nat.not_lt.mp h2), h3, Nat.not_lt.mp h1]

/-- When the unchecked sum does not wrap, `align_up` with a power-of-two
alignment is rounding up to the next multiple. -/
theorem arena_align_up_eq (o k : Nat) (hk : k ≤ 63) (ho : o + 2 ^ k - 1 < 2 ^ 64) :
    ArenaAllocator.align_up o (2 ^ k) = (o + 2 ^ k - 1) / 2 ^ k * 2 ^ k := by
  have ha : 1 ≤ 2 ^ k := Nat.one_le_two_pow
  have hklt : 2 ^ k - 1 < 2 ^ 64 := by
    have h2 : (2 : Nat) ^ k ≤ 2 ^ 63 := Nat.pow_le_pow_right (by norm_num) hk
    omega
  have e1 : (o + 2 ^ k + (2 ^ 64 - 1)) % 2 ^ 64 = o + 2 ^ k - 1 := by
    have h3 : o + 2 ^ k + (2 ^ 64 - 1) = (o + 2 ^ k - 1) + 2 ^ 64 := by omega
    rw [h3, Nat.add_mod_right, Nat.mod_eq_of_lt ho]
  have e2 : (2 ^ k + (2 ^ 64 - 1)) % 2 ^ 64 = 2 ^ k - 1 := by
    have h3 : 2 ^ k + (2 ^ 64 - 1) = (2 ^ k - 1) + 2 ^ 64 := by omega
    rw [h3, Nat.add_mod_right, Nat.mod_eq_of_lt hklt]
  unfold ArenaAllocator.align_up USIZE_MAX
  rw [e1, e2]
  exact land_mask_eq _ k ho (le_trans hk (by norm_num))

/-- When the unchecked sum does not wrap, `align_up` does not move the offset
backwards. -/
theorem arena_align_up_ge (o k : Nat) (hk : k ≤ 63) (ho : o + 2 ^ k - 1 < 2 ^ 64) :
    o ≤ ArenaAllocator.align_up o (2 ^ k) := by
  rw [arena_align_up_eq o k hk ho]
  have ha : 0 < 2 ^ k := Nat.pos_pow_of_pos k (by norm_num)
  have h1 : o + 2 ^ k - 1 < (o + 2 ^ k - 1) / 2 ^ k * 2 ^ k + 2 ^ k :=
    Nat.lt_div_mul_add ha
  omega

/-- `allocate` in closed form: it succeeds exactly when the end offset
neither overflows `usize` nor exceeds the buffer length, bumps the offset to
the end, and returns the aligned offset with the exact requested length. -/
theorem arena_allocate_eq (a : ArenaAllocator) (size align : Nat) :
    a.allocate size align =
      if ArenaAllocator.align_up a.offset align + size ≤ USIZE_MAX ∧
          ArenaAllocator.align_up a.offset align + size ≤ a.buffer.length then
        ({ buffer := a.buffer, offset := ArenaAllocator.align_up a.offset align + size },
          some (ArenaAllocator.align_up a.offset align, size))
      else (a, none) := by
  unfold ArenaAllocator.allocate checked_add
  by_cases h1 : ArenaAllocator.align_up a.offset align + size ≤ USIZE_MAX
  · simp only [h1, if_true, true_and]
    by_cases h2 : ArenaAllocator.align_up a.offset align + size ≤ a.buffer.length
    · simp only [h2, if_true]
      rw [if_neg (by omega)]
    · simp only [h2, if_false]
      rw [if_pos (by omega)]
  · simp [h1]

/-! ## Claim theorems -/

set_option maxRecDepth 4000 in
/-- C1: the claim says that for every successful `ArenaAllocator::allocate`
the base address of the returned region is a multiple of `layout.align()`.
The code however returns `buffer.as_mut_ptr() + aligned_offset`, and the
backing `Vec<MaybeUninit<u8>>` only guarantees 1-byte alignment of its data
pointer, so nothing makes the buffer base itself a multiple of the requested
alignment. This theorem evaluates the code at a failing input: a buffer whose
base address is 16 modulo 64 (a typical 16-byte-aligned heap pointer) and a
fresh arena, where `allocate(64, 64)` succeeds at aligned offset 0 and the
returned base address `16 + 0` is not a multiple of 64. -/
theorem arena_base_address_misaligned :
    ((ArenaAllocator.new 128).allocate 64 64).2 = some (0, 64) ∧
    ((ArenaAllocator.new 128).alloc 16 64 64).2 = 16 ∧ ¬ (16 : Nat) % 64 = 0 := by
  decide

/-- C2: `allocate` fails exactly when `round_up(cursor, align) + size`
overflows `usize` or exceeds the buffer capacity, and on the error path the
allocator state (cursor and buffer) is exactly as before. -/
theorem arena_allocate_error_iff (a : ArenaAllocator) (size align : Nat) :
    ((a.allocate size align).2 = none ↔
      USIZE_MAX < ArenaAllocator.align_up a.offset align + size ∨
      a.buffer.length < ArenaAllocator.align_up a.offset align + size) ∧
    ((a.allocate size align).2 = none → (a.allocate size align).1 = a) := by
  rw [arena_allocate_eq]
  by_cases h : ArenaAllocator.align_up a.offset align + size ≤ USIZE_MAX ∧
      ArenaAllocator.align_up a.offset align + size ≤ a.buffer.length
  · rw [if_pos h]
    refine ⟨⟨fun hc => by simp at hc, fun hc => ?_⟩, fun hc => by simp at hc⟩
    omega
  · rw [if_neg h]
    exact ⟨⟨fun _ => by omega, fun _ => rfl⟩, fun _ => rfl⟩

/-- C3: on every successful `allocate`, the new cursor is
`round_up(old_cursor, align) + size`, the returned region starts at buffer
offset `round_up(old_cursor, align)` and has length exactly the requested
size (and the buffer itself is untouched). -/
theorem arena_allocate_success_spec (a : ArenaAllocator) (size align : Nat)
    (a1 : ArenaAllocator) (o l : Nat) (h : a.allocate size align = (a1, some (o, l))) :
    o = ArenaAllocator.align_up a.offset align ∧ l = size ∧
    a1.offset = ArenaAllocator.align_up a.offset align + size ∧
    a1.buffer = a.buffer := by
  rw [arena_allocate_eq] at h
  by_cases hc : ArenaAllocator.align_up a.offset align + size ≤ USIZE_MAX ∧
      ArenaAllocator.align_up a.offset align + size ≤ a.buffer.length
  · rw [if_pos hc] at h
    simp only [Prod.mk.injEq, Option.some.injEq] at h
    obtain ⟨h1, h2, h3⟩ := h
    subst h1 h2 h3
    exact ⟨rfl, rfl, rfl, rfl⟩
  · rw [if_neg hc] at h
    simp only [Prod.mk.injEq] at h
    exact absurd h.2 (by simp)

/-- Witness for C3 at a concrete input: a fresh arena of capacity 100 and
`allocate(10, 4)`, which succeeds with region offset 0, length 10 and new
cursor 10. -/
theorem arena_allocate_success_spec_witness :
    (0 : Nat) = ArenaAllocator.align_up (ArenaAllocator.new 100).offset 4 ∧
    (10 : Nat) = 10 ∧
    ({ buffer := List.replicate 100 (none : MUByte), offset := 10 } :
        ArenaAllocator).offset =
      ArenaAllocator.align_up (ArenaAllocator.new 100).offset 4 + 10 ∧
    ({ buffer := List.replicate 100 (none : MUByte), offset := 10 } :
        ArenaAllocator).buffer = (ArenaAllocator.new 100).buffer :=
  arena_allocate_success_spec (ArenaAllocator.new 100) 10 4
    { buffer := List.replicate 100 none, offset := 10 } 0 10 (by decide)

/-- C9: the unchecked addition `offset + align - 1` inside `align_up` cannot
overflow `usize` in a reachable call from `allocate`: with the cursor at most
the capacity, the capacity at most `isize::MAX` (a `Vec` bound) and the
alignment a power of two of at most `2 ^ 63` (a `Layout` bound), the sum
fits, and `align_up` computes the exact (unwrapped) rounding-up. -/
theorem arena_align_up_no_overflow (off cap align k : Nat)
    (h1 : off ≤ cap) (h2 : cap ≤ 2 ^ 63 - 1) (h3 : align = 2 ^ k) (h4 : k ≤ 63) :
    off + align - 1 ≤ USIZE_MAX ∧
    ArenaAllocator.align_up off align = (off + align - 1) / align * align := by
  subst h3
  have hp : (2 : Nat) ^ k ≤ 2 ^ 63 := Nat.pow_le_pow_right (by norm_num) h4
  have hp1 : 1 ≤ (2 : Nat) ^ k := Nat.one_le_two_pow
  have hU : USIZE_MAX = 2 ^ 64 - 1 := rfl
  have hlt : off + 2 ^ k - 1 < 2 ^ 64 := by omega
  exact ⟨by omega, arena_align_up_eq off k h4 hlt⟩

/-- Witness for C9 at a concrete input: cursor 5, capacity 10, alignment 8. -/
theorem arena_align_up_no_overflow_witness :
    5 + 8 - 1 ≤ USIZE_MAX ∧
    ArenaAllocator.align_up 5 8 = (5 + 8 - 1) / 8 * 8 :=
  arena_align_up_no_overflow 5 10 8 3 (by norm_num) (by norm_num) (by norm_num)
    (by norm_num)

/-- C10: the `GlobalAlloc` adapter of the arena refines its typed `Allocator`
interface: `alloc` returns the null pointer exactly when `allocate` fails and
otherwise the base pointer of the region `allocate` returns, with the
identical effect on the allocator state; and `dealloc`, like `deallocate`,
leaves the state unchanged. `base` is the (non-null) address of the backing
buffer. -/
theorem arena_global_alloc_refines (a : ArenaAllocator) (base size align : Nat)
    (hbase : 0 < base) :
    ((a.alloc base size align).2 = 0 ↔ (a.allocate size align).2 = none) ∧
    (a.alloc base size align).1 = (a.allocate size align).1 ∧
    (∀ reg, (a.allocate size align).2 = some reg →
      (a.alloc base size align).2 = base + reg.1) ∧
    (∀ p, a.dealloc p = a ∧ a.deallocate p = a) := by
  rcases hres : a.allocate size align with ⟨a1, r⟩
  cases r with
  | none =>
    refine ⟨?_, ?_, ?_, fun p => ⟨rfl, rfl⟩⟩ <;>
      simp [ArenaAllocator.alloc, hres]
  | some reg0 =>
    refine ⟨?_, ?_, ?_, fun p => ⟨rfl, rfl⟩⟩
    · simp only [ArenaAllocator.alloc, hres]
      constructor
      · intro hc; omega
      · intro hc; simp at hc
    · simp [ArenaAllocator.alloc, hres]
    · intro reg hreg
      simp only [hres, Option.some.injEq] at hreg
      subst hreg
      simp [ArenaAllocator.alloc, hres]

/-- Witness for C10 at a concrete input: buffer base 1, a fresh arena of
capacity 8 and request (4, 4); the adapter leaves the same state as the typed
interface. -/
theorem arena_global_alloc_refines_witness :
    ((ArenaAllocator.new 8).alloc 1 4 4).1 = ((ArenaAllocator.new 8).allocate 4 4).1 :=
  (arena_global_alloc_refines (ArenaAllocator.new 8) 1 4 4 (by norm_num)).2.1

/-- `allocate` never changes the backing buffer. -/
theorem arena_allocate_buffer (a : ArenaAllocator) (s al : Nat) :
    ((a.allocate s al).1).buffer = a.buffer := by
  rw [arena_allocate_eq]
  split <;> rfl

/-- Running any operation sequence never changes the backing buffer. -/
theorem runSince_buffer (ops : List ArenaOp) : ∀ (a : ArenaAllocator)
    (regs : List (Nat × Nat)), ((runSince a regs ops).1).buffer = a.buffer := by
  induction ops with
  | nil => intro a regs; rfl
  | cons op ops ih =>
    intro a regs
    cases op with
    | reset => rw [runSince, ih]; rfl
    | dealloc => rw [runSince]; exact ih a regs
    | alloc s al =>
      rw [runSince]
      have hb := arena_allocate_buffer a s al
      rcases hres : a.allocate s al with ⟨a1, r⟩
      rw [hres] at hb
      cases r with
      | none => simp only [ih]; exact hb
      | some r0 => simp only [ih]; exact hb

/-- C5: `reset()` sets the cursor to 0 unconditionally, and replaying any
fixed sequence of `(size, align)` requests after a reset yields exactly the
same sequence of offsets and success/failure outcomes as the same sequence
run from the previous reset point (here: from construction, offset 0 over the
same buffer): the results are a deterministic function of the request
sequence since the last reset. -/
theorem arena_reset_replay (C : Nat) (ops : List ArenaOp) (reqs : List (Nat × Nat)) :
    (∀ a : ArenaAllocator, a.reset.offset = 0) ∧
    runAllocs ((runSince (ArenaAllocator.new C) [] ops).1.reset) reqs =
      runAllocs (ArenaAllocator.new C) reqs := by
  refine ⟨fun a => rfl, ?_⟩
  have hb : (runSince (ArenaAllocator.new C) [] ops).1.reset = ArenaAllocator.new C := by
    have h1 := runSince_buffer ops (ArenaAllocator.new C) []
    show ArenaAllocator.mk (runSince (ArenaAllocator.new C) [] ops).1.buffer 0 =
      ArenaAllocator.new C
    rw [h1]
    rfl
  rw [hb]

/-- Running a concatenation of operation sequences is running them one after
the other. -/
theorem runSince_append (l1 l2 : List ArenaOp) : ∀ (a : ArenaAllocator)
    (regs : List (Nat × Nat)),
    runSince a regs (l1 ++ l2) =
      runSince (runSince a regs l1).1 (runSince a regs l1).2 l2 := by
  induction l1 with
  | nil => intro a regs; rfl
  | cons op l1 ih =>
    intro a regs
    cases op with
    | reset => simp only [List.cons_append, runSince]; exact ih _ _
    | dealloc => simp only [List.cons_append, runSince]; exact ih _ _
    | alloc s al =>
      simp only [List.cons_append, runSince]
      rcases hres : a.allocate s al with ⟨a1, r⟩
      cases r with
      | none => exact ih _ _
      | some r0 => exact ih _ _

/-- The inductive invariant of any run: the cursor stays within the buffer,
every collected region since the last reset ends at or before the cursor, and
the collected regions are pairwise ordered end-before-start. -/
theorem runSince_inv (ops : List ArenaOp) : ∀ (a : ArenaAllocator)
    (regs : List (Nat × Nat)), (∀ op ∈ ops, ArenaOpOk op) →
    a.buffer.length < 2 ^ 63 →
    a.offset ≤ a.buffer.length →
    (∀ r ∈ regs, r.1 + r.2 ≤ a.offset) →
    regs.Pairwise (fun r1 r2 => r1.1 + r1.2 ≤ r2.1) →
    (runSince a regs ops).1.offset ≤ (runSince a regs ops).1.buffer.length ∧
    (∀ r ∈ (runSince a regs ops).2, r.1 + r.2 ≤ (runSince a regs ops).1.offset) ∧
    (runSince a regs ops).2.Pairwise (fun r1 r2 => r1.1 + r1.2 ≤ r2.1) := by
  induction ops with
  | nil => exact fun a regs _ _ h1 h2 h3 => ⟨h1, h2, h3⟩
  | cons op ops ih =>
    intro a regs hops hcap hoff hregs hpw
    have hops1 : ∀ o ∈ ops, ArenaOpOk o := fun o ho => hops o (List.mem_cons_of_mem _ ho)
    cases op with
    | reset =>
      simp only [runSince]
      exact ih a.reset [] hops1 hcap (Nat.zero_le _) (by simp) (by simp)
    | dealloc =>
      simp only [runSince]
      exact ih a regs hops1 hcap hoff hregs hpw
    | alloc s al =>
      obtain ⟨k, hk, rfl⟩ := hops (ArenaOp.alloc s al) (List.mem_cons_self _ _)
      have hpow : (2 : Nat) ^ k ≤ 2 ^ 63 := Nat.pow_le_pow_right (by norm_num) hk
      have hwrap : a.offset + 2 ^ k - 1 < 2 ^ 64 := by
        have h1 : 1 ≤ (2 : Nat) ^ k := Nat.one_le_two_pow
        omega
      have hge : a.offset ≤ ArenaAllocator.align_up a.offset (2 ^ k) :=
        arena_align_up_ge a.offset k hk hwrap
      by_cases hc : ArenaAllocator.align_up a.offset (2 ^ k) + s ≤ USIZE_MAX ∧
          ArenaAllocator.align_up a.offset (2 ^ k) + s ≤ a.buffer.length
      · have hres : a.allocate s (2 ^ k) =
            ({ buffer := a.buffer,
               offset := ArenaAllocator.align_up a.offset (2 ^ k) + s },
             some (ArenaAllocator.align_up a.offset (2 ^ k), s)) := by
          rw [arena_allocate_eq, if_pos hc]
        simp only [runSince, hres]
        refine ih (ArenaAllocator.mk a.buffer
            (ArenaAllocator.align_up a.offset (2 ^ k) + s))
          (regs ++ [(ArenaAllocator.align_up a.offset (2 ^ k), s)])
          hops1 hcap hc.2 ?_ ?_
        · intro r hr
          rcases List.mem_append.mp hr with h | h
          · exact le_trans (hregs r h) (le_trans hge (Nat.le_add_right _ _))
          · rw [List.mem_singleton.mp h]
        · rw [List.pairwise_append]
          refine ⟨hpw, List.pairwise_singleton _ _, ?_⟩
          intro r hr r2 hr2
          rw [List.mem_singleton.mp hr2]
          exact le_trans (hregs r hr) hge
      · have hres : a.allocate s (2 ^ k) = (a, none) := by
          rw [arena_allocate_eq, if_neg hc]
        simp only [runSince, hres]
        exact ih a regs hops1 hcap hoff hregs hpw

/-- A single operation other than a reset never decreases the cursor. -/
theorem runSince_step_mono (a : ArenaAllocator) (regs : List (Nat × Nat))
    (op : ArenaOp) (hop : ArenaOpOk op) (hcap : a.buffer.length < 2 ^ 63)
    (hoff : a.offset ≤ a.buffer.length) (hne : op ≠ ArenaOp.reset) :
    a.offset ≤ (runSince a regs [op]).1.offset := by
  cases op with
  | reset => exact absurd rfl hne
  | dealloc => exact Nat.le_refl _
  | alloc s al =>
    obtain ⟨k, hk, rfl⟩ := hop
    have hpow : (2 : Nat) ^ k ≤ 2 ^ 63 := Nat.pow_le_pow_right (by norm_num) hk
    have hwrap : a.offset + 2 ^ k - 1 < 2 ^ 64 := by
      have h1 : 1 ≤ (2 : Nat) ^ k := Nat.one_le_two_pow
      omega
    have hge : a.offset ≤ ArenaAllocator.align_up a.offset (2 ^ k) :=
      arena_align_up_ge a.offset k hk hwrap
    by_cases hc : ArenaAllocator.align_up a.offset (2 ^ k) + s ≤ USIZE_MAX ∧
        ArenaAllocator.align_up a.offset (2 ^ k) + s ≤ a.buffer.length
    · have hres : a.allocate s (2 ^ k) =
          ({ buffer := a.buffer,
             offset := ArenaAllocator.align_up a.offset (2 ^ k) + s },
           some (ArenaAllocator.align_up a.offset (2 ^ k), s)) := by
        rw [arena_allocate_eq, if_pos hc]
      simp only [runSince, hres]
      exact le_trans hge (Nat.le_add_right _ _)
    · have hres : a.allocate s (2 ^ k) = (a, none) := by
        rw [arena_allocate_eq, if_neg hc]
      simp only [runSince, hres]
      exact Nat.le_refl _

/-- C4: for every sequence of operations from `new(C)` (with valid `Layout`
alignments and `C` within the `Vec` bound), after every prefix the cursor is
at most `C`, every region returned by a successful allocation since the last
reset lies within `[0, cursor)` (its end is at most the cursor), the regions
are pairwise disjoint and in non-decreasing address order (each region ends
at or before the next begins), and the cursor is non-decreasing across any
operation that is not a reset. -/
theorem arena_invariants (C : Nat) (hC : C < 2 ^ 63) (ops : List ArenaOp)
    (hops : ∀ op ∈ ops, ArenaOpOk op) (n : Nat) :
    (runSince (ArenaAllocator.new C) [] (ops.take n)).1.offset ≤ C ∧
    (∀ r ∈ (runSince (ArenaAllocator.new C) [] (ops.take n)).2,
      r.1 + r.2 ≤ (runSince (ArenaAllocator.new C) [] (ops.take n)).1.offset) ∧
    (runSince (ArenaAllocator.new C) [] (ops.take n)).2.Pairwise
      (fun r1 r2 => r1.1 + r1.2 ≤ r2.1) ∧
    (∀ hn : n < ops.length, ops.get ⟨n, hn⟩ ≠ ArenaOp.reset →
      (runSince (ArenaAllocator.new C) [] (ops.take n)).1.offset ≤
        (runSince (ArenaAllocator.new C) [] (ops.take (n + 1))).1.offset) := by
  have hnew : (ArenaAllocator.new C).buffer.length = C := by
    simp [ArenaAllocator.new]
  have htake : ∀ op ∈ ops.take n, ArenaOpOk op :=
    fun op hop => hops op (List.mem_of_mem_take hop)
  have hbuf := runSince_buffer (ops.take n) (ArenaAllocator.new C) []
  have hlen : (runSince (ArenaAllocator.new C) [] (ops.take n)).1.buffer.length = C := by
    rw [hbuf, hnew]
  obtain ⟨h1, h2, h3⟩ := runSince_inv (ops.take n) (ArenaAllocator.new C) []
    htake (by rw [hnew]; exact hC) (by rw [hnew]; exact Nat.zero_le _)
    (by simp) (by simp)
  refine ⟨by rw [hlen] at h1; exact h1, h2, h3, ?_⟩
  intro hn hne
  have hget : ops[n]? = some (ops.get ⟨n, hn⟩) := by
    rw [List.getElem?_eq_getElem hn, List.get_eq_getElem]
  rw [List.take_succ, hget]
  rw [runSince_append]
  exact runSince_step_mono _ _ _ (hops _ (List.get_mem ops n hn))
    (by rw [hbuf, hnew]; exact hC) (by rw [hlen] at h1; rw [hlen]; exact h1) hne

/-- Witness for C4 at a concrete input: capacity 100, the operation sequence
allocate(10, 4); allocate(20, 8); reset; allocate(10, 4); after the full
sequence the cursor is at most 100. -/
theorem arena_invariants_witness :
    (runSince (ArenaAllocator.new 100) []
      ([ArenaOp.alloc 10 4, ArenaOp.alloc 20 8, ArenaOp.reset,
        ArenaOp.alloc 10 4].take 4)).1.offset ≤ 100 :=
  (arena_invariants 100 (by norm_num)
    [ArenaOp.alloc 10 4, ArenaOp.alloc 20 8, ArenaOp.reset, ArenaOp.alloc 10 4]
    (by
      intro op hop
      simp only [List.mem_cons, List.not_mem_nil, or_false] at hop
      rcases hop with rfl | rfl | rfl | rfl
      · exact ⟨2, by norm_num⟩
      · exact ⟨3, by norm_num⟩
      · exact trivial
      · exact ⟨2, by norm_num⟩) 4).1

/-- Looking up the address just pushed. -/
theorem lookupB_cons_self (h : Heap) (q : Nat) (b : Block) :
    lookupB ((q, b) :: h) q = some b := by
  simp [lookupB, List.find?]

/-- Looking up another address skips the pushed entry. -/
theorem lookupB_cons_ne (h : Heap) (q p : Nat) (b : Block) (hne : q ≠ p) :
    lookupB ((q, b) :: h) p = lookupB h p := by
  have hb : (q == p) = false := beq_eq_false_iff_ne.mpr hne
  simp [lookupB, List.find?, hb]

/-- Replacing the block at a freshly pushed address touches only that entry. -/
theorem setBlock_cons_fresh (h : Heap) (q : Nat) (b0 b : Block)
    (hfresh : lookupB h q = none) :
    setBlock ((q, b0) :: h) q b = (q, b) :: h := by
  have hnone : h.find? (fun e => e.1 == q) = none := by
    simp only [lookupB] at hfresh
    exact Option.map_eq_none.mp hfresh
  have hall := List.find?_eq_none.mp hnone
  unfold setBlock
  simp only [List.map_cons, beq_self_eq_true, if_true]
  congr 1
  have hmap : h.map (fun e => if e.1 == q then (q, b) else e) = h.map id := by
    apply List.map_congr_left
    intro e he
    have : ¬ (e.1 == q) = true := hall e he
    simp [this]
  rw [hmap, List.map_id]

/-- `free` at another address keeps the pushed entry. -/
theorem free_cons_ne (h : Heap) (q p : Nat) (b : Block) (hne : q ≠ p) :
    free ((q, b) :: h) p = (q, b) :: free h p := by
  unfold free
  rw [List.eraseP_cons_of_neg]
  simp [hne]

/-- Zero-filling a freshly allocated uninitialized block of `size` bytes
yields `size` zero bytes. -/
theorem write_bytes_fresh (h : Heap) (q size : Nat) (hfresh : lookupB h q = none) :
    write_bytes ((q, List.replicate size none) :: h) q 0 size =
      (q, List.replicate size (some 0)) :: h := by
  simp only [write_bytes, lookupB_cons_self]
  rw [setBlock_cons_fresh h q _ _ hfresh]
  simp [List.drop_replicate]

/-- Copying `m` bytes from an existing block into a freshly allocated
uninitialized block of `size` bytes. -/
theorem copy_into_fresh (h : Heap) (p q m size : Nat) (bs : Block)
    (hp : lookupB h p = some bs) (hfresh : lookupB h q = none) (hqp : q ≠ p) :
    copy_nonoverlapping ((q, List.replicate size none) :: h) p q m =
      (q, bs.take m ++ List.replicate (size - m) none) :: h := by
  simp only [copy_nonoverlapping, lookupB_cons_ne h q p _ hqp, hp, lookupB_cons_self]
  rw [setBlock_cons_fresh h q _ _ hfresh]
  rw [List.drop_replicate]

/-- `CAllocator`'s `alloc` in terms of the platform primitive: failure. -/
theorem c_alloc_of_prim_none (prim : Prim) (h : Heap) (size align : Nat)
    (hq : prim h size (max align usizeSize) = none) :
    CAllocator.alloc prim h size align = (0, h) := by
  simp only [CAllocator.alloc, allocate_memory, hq]

/-- `CAllocator`'s `alloc` in terms of the platform primitive: success. -/
theorem c_alloc_of_prim_some (prim : Prim) (h h1 : Heap) (size align q : Nat)
    (hq : prim h size (max align usizeSize) = some (q, h1)) (hq0 : q ≠ 0) :
    CAllocator.alloc prim h size align = (q, h1) := by
  simp only [CAllocator.alloc, allocate_memory, hq, hq0, if_false]

/-- `RawCAllocator`'s `alloc` in terms of `malloc`: failure. -/
theorem raw_alloc_of_mal_none (mal : Malloc) (h : Heap) (size : Nat)
    (hq : mal h size = none) :
    RawCAllocator.alloc mal h size = (0, h) := by
  simp only [RawCAllocator.alloc, hq]

/-- `RawCAllocator`'s `alloc` in terms of `malloc`: success. -/
theorem raw_alloc_of_mal_some (mal : Malloc) (h h1 : Heap) (size q : Nat)
    (hq : mal h size = some (q, h1)) :
    RawCAllocator.alloc mal h size = (q, h1) := by
  simp only [RawCAllocator.alloc, hq]

/-- C6: `realloc(old_ptr, old_layout, new_size)` of both C-heap allocators:
when the new allocation fails, it returns null and the heap — in particular
the old block — is exactly as before; when it succeeds, it returns the new
pointer and the final heap holds, at the new pointer, a block of `new_size`
bytes whose first `min(old_size, new_size)` bytes are copied from the old
block (the rest uninitialized), with the old block freed and every other
block untouched. -/
theorem c_realloc_spec (prim : Prim) (mal : Malloc) (h : Heap) (p : Nat)
    (bs : Block) (old_size old_align new_size : Nat)
    (hprim : PrimOk prim) (hmal : MallocOk mal)
    (hp : lookupB h p = some bs) (hlen : bs.length = old_size) (hp0 : p ≠ 0) :
    (prim h new_size (max old_align usizeSize) = none →
      CAllocator.realloc prim h p old_size old_align new_size = (0, h)) ∧
    (∀ q h1, prim h new_size (max old_align usizeSize) = some (q, h1) →
      CAllocator.realloc prim h p old_size old_align new_size =
        (q, (q, bs.take (min old_size new_size) ++
          List.replicate (new_size - min old_size new_size) none) :: free h p)) ∧
    (mal h new_size = none →
      RawCAllocator.realloc mal h p old_size new_size = (0, h)) ∧
    (∀ q h1, mal h new_size = some (q, h1) →
      RawCAllocator.realloc mal h p old_size new_size =
        (q, (q, bs.take (min old_size new_size) ++
          List.replicate (new_size - min old_size new_size) none) :: free h p)) := by
  refine ⟨?_, ?_, ?_, ?_⟩
  · intro hq
    simp only [CAllocator.realloc, c_alloc_of_prim_none prim h new_size old_align hq]
    simp
  · intro q h1 hq
    obtain ⟨hq0, halign, hbound, hfresh, rfl⟩ :=
      hprim h new_size (max old_align usizeSize) q h1 hq
    have hqp : q ≠ p := by
      intro e
      rw [e, hp] at hfresh
      exact Option.noConfusion hfresh
    simp only [CAllocator.realloc,
      c_alloc_of_prim_some prim h _ new_size old_align q hq hq0]
    rw [if_pos hq0]
    rw [copy_into_fresh h p q (min old_size new_size) new_size bs hp hfresh hqp]
    show (q, free _ p) = _
    rw [free_cons_ne h q p _ hqp]
  · intro hq
    simp only [RawCAllocator.realloc, raw_alloc_of_mal_none mal h new_size hq]
    simp
  · intro q h1 hq
    obtain ⟨hq0, halign, hbound, hfresh, rfl⟩ := hmal h new_size q h1 hq
    have hqp : q ≠ p := by
      intro e
      rw [e, hp] at hfresh
      exact Option.noConfusion hfresh
    simp only [RawCAllocator.realloc, raw_alloc_of_mal_some mal h _ new_size q hq]
    rw [if_pos hq0]
    rw [copy_into_fresh h p q (min old_size new_size) new_size bs hp hfresh hqp]
    show (q, free _ p) = _
    rw [free_cons_ne h q p _ hqp]

/-- Witness for C6 at a concrete input: a heap with one 1-byte block at
address 5, a platform primitive that refuses the request: `realloc` returns
null and the heap is unchanged. -/
theorem c_realloc_spec_witness :
    CAllocator.realloc (fun _ _ _ => none) [(5, [some 0])] 5 1 4 2 =
      (0, [(5, [some 0])]) :=
  (c_realloc_spec (fun _ _ _ => none) (fun _ _ => none) [(5, [some 0])] 5
    [some 0] 1 4 2
    (fun _ _ _ _ _ hq => Option.noConfusion hq)
    (fun _ _ _ _ hq => Option.noConfusion hq)
    rfl rfl (by norm_num)).1 rfl

/-- C7: `alloc_zeroed(layout)` of both C-heap allocators behaves as `alloc`
followed, on success, by zero-filling all `layout.size()` bytes: it returns
exactly the pointer `alloc` returns (so null exactly when `alloc` fails), the
failure leaves the heap unchanged, and on success the returned block is
`size` zero bytes. -/
theorem c_alloc_zeroed_spec (prim : Prim) (mal : Malloc) (h : Heap)
    (size align : Nat) (hprim : PrimOk prim) (hmal : MallocOk mal) :
    ((CAllocator.alloc_zeroed prim h size align).1 =
      (CAllocator.alloc prim h size align).1) ∧
    (prim h size (max align usizeSize) = none →
      CAllocator.alloc_zeroed prim h size align = (0, h)) ∧
    (∀ q h1, prim h size (max align usizeSize) = some (q, h1) →
      CAllocator.alloc_zeroed prim h size align =
        (q, (q, List.replicate size (some 0)) :: h)) ∧
    ((RawCAllocator.alloc_zeroed mal h size).1 =
      (RawCAllocator.alloc mal h size).1) ∧
    (mal h size = none → RawCAllocator.alloc_zeroed mal h size = (0, h)) ∧
    (∀ q h1, mal h size = some (q, h1) →
      RawCAllocator.alloc_zeroed mal h size =
        (q, (q, List.replicate size (some 0)) :: h)) := by
  refine ⟨?_, ?_, ?_, ?_, ?_, ?_⟩
  · rcases hr : CAllocator.alloc prim h size align with ⟨p1, h1⟩
    simp only [CAllocator.alloc_zeroed, hr]
    split <;> rfl
  · intro hq
    simp only [CAllocator.alloc_zeroed, c_alloc_of_prim_none prim h size align hq]
    simp
  · intro q h1 hq
    obtain ⟨hq0, halign, hbound, hfresh, rfl⟩ :=
      hprim h size (max align usizeSize) q h1 hq
    simp only [CAllocator.alloc_zeroed, c_alloc_of_prim_some prim h _ size align q hq hq0]
    rw [if_pos hq0]
    rw [write_bytes_fresh h q size hfresh]
  · rcases hr : RawCAllocator.alloc mal h size with ⟨p1, h1⟩
    simp only [RawCAllocator.alloc_zeroed, hr]
    split <;> rfl
  · intro hq
    simp only [RawCAllocator.alloc_zeroed, raw_alloc_of_mal_none mal h size hq]
    simp
  · intro q h1 hq
    obtain ⟨hq0, halign, hbound, hfresh, rfl⟩ := hmal h size q h1 hq
    simp only [RawCAllocator.alloc_zeroed, raw_alloc_of_mal_some mal h _ size q hq]
    rw [if_pos hq0]
    rw [write_bytes_fresh h q size hfresh]

/-- Witness for C7 at a concrete input: a platform primitive that refuses the
request on the empty heap: `alloc_zeroed` returns null with the heap
unchanged. -/
theorem c_alloc_zeroed_spec_witness :
    CAllocator.alloc_zeroed (fun _ _ _ => none) [] 3 1 = (0, []) :=
  (c_alloc_zeroed_spec (fun _ _ _ => none) (fun _ _ => none) [] 3 1
    (fun _ _ _ _ _ hq => Option.noConfusion hq)
    (fun _ _ _ _ hq => Option.noConfusion hq)).2.1 rfl

/-- C8: on every allocator of the crate, an allocation request of
`usize::MAX` bytes at alignment 8 fails with the allocator's failure result
(error / null) and leaves the state unchanged, rather than wrapping any
offset or size computation: the arena's checked end-offset computation
rejects it for every reachable state, and no platform primitive honouring its
contract (non-null, 8-aligned pointer, block within the address space) can
satisfy it. -/
theorem overflow_guard (a : ArenaAllocator) (prim : Prim) (mal : Malloc)
    (h : Heap) (hoff : a.offset ≤ a.buffer.length)
    (hcap : a.buffer.length ≤ 2 ^ 63 - 1)
    (hprim : PrimOk prim) (hmal : MallocOk mal) :
    (a.allocate (2 ^ 64 - 1) 8).2 = none ∧ (a.allocate (2 ^ 64 - 1) 8).1 = a ∧
    (CAllocator.allocate prim h (2 ^ 64 - 1) 8).1 = none ∧
    (CAllocator.allocate prim h (2 ^ 64 - 1) 8).2 = h ∧
    (RawCAllocator.allocate mal h (2 ^ 64 - 1) 8).1 = none ∧
    (RawCAllocator.allocate mal h (2 ^ 64 - 1) 8).2 = h := by
  have harena : a.allocate (2 ^ 64 - 1) 8 = (a, none) := by
    rw [arena_allocate_eq, if_neg]
    intro hc
    have hU : USIZE_MAX = 2 ^ 64 - 1 := rfl
    omega
  have hcnone : prim h (2 ^ 64 - 1) (max 8 usizeSize) = none := by
    rcases hq : prim h (2 ^ 64 - 1) (max 8 usizeSize) with _ | r
    · rfl
    · rcases r with ⟨q, h1⟩
      obtain ⟨hq0, halign, hbound, _, _⟩ :=
        hprim h (2 ^ 64 - 1) (max 8 usizeSize) q h1 hq
      have h8 : q % 8 = 0 := by
        have : max 8 usizeSize = 8 := by norm_num [usizeSize]
        rw [this] at halign
        exact halign
      have hq8 : 8 ≤ q :=
        Nat.le_of_dvd (Nat.pos_of_ne_zero hq0) (Nat.dvd_of_mod_eq_zero h8)
      omega
  have hmnone : mal h (2 ^ 64 - 1) = none := by
    rcases hq : mal h (2 ^ 64 - 1) with _ | r
    · rfl
    · rcases r with ⟨q, h1⟩
      obtain ⟨hq0, halign, hbound, _, _⟩ := hmal h (2 ^ 64 - 1) q h1 hq
      have hq8 : 8 ≤ q :=
        Nat.le_of_dvd (Nat.pos_of_ne_zero hq0) (Nat.dvd_of_mod_eq_zero halign)
      omega
  refine ⟨by rw [harena], by rw [harena], ?_, ?_, ?_, ?_⟩
  · simp only [CAllocator.allocate, allocate_memory, hcnone]
  · simp only [CAllocator.allocate, allocate_memory, hcnone]
  · simp only [RawCAllocator.allocate, hmnone]
  · simp only [RawCAllocator.allocate, hmnone]

/-- Witness for C8 at a concrete input: a fresh arena of capacity 10 rejects
an allocation of `usize::MAX` bytes at alignment 8. -/
theorem overflow_guard_witness :
    ((ArenaAllocator.new 10).allocate (2 ^ 64 - 1) 8).2 = none :=
  (overflow_guard (ArenaAllocator.new 10) (fun _ _ _ => none) (fun _ _ => none)
    []
    (by norm_num [ArenaAllocator.new])
    (by norm_num [ArenaAllocator.new])
    (fun _ _ _ _ _ hq => Option.noConfusion hq)
    (fun _ _ _ _ hq => Option.noConfusion hq)).1
